import Mathlib

/-!
# Verification of `nest-utils` data helpers

A shallow embedding of the data-transformation helpers of the `nest-utils`
repository (`src/data/data-operation.ts`, `src/data/type-transform.ts`,
`src/configs/env-config.ts`, and the request-parameter pipes), together with
proofs about the claims of the specification.

JavaScript runtime values are modelled by the inductive type `JsVal`:
`undefined`, `null`, booleans, numbers (modelled as exact integers; the
floating-point representation plays no role in the merge and parse logic
verified here), strings, arrays and plain objects (association lists in
property-insertion order, with unique keys for objects produced by the
code itself).  `typeof v == 'object'`, `v instanceof Object`,
`Array.isArray(v)` and JavaScript truthiness are embedded by the boolean
functions below.
-/

namespace NestUtils

inductive JsVal where
  | undefV : JsVal
  | null : JsVal
  | boolV : Bool → JsVal
  | numV : Int → JsVal
  | strV : String → JsVal
  | arr : List JsVal → JsVal
  | obj : List (String × JsVal) → JsVal

/-- `value === undefined` -/
def JsVal.isUndefV : JsVal → Bool
  | .undefV => true
  | _ => false

/-- `value === null` -/
def JsVal.isNullV : JsVal → Bool
  | .null => true
  | _ => false

/-- `Array.isArray(value)` -/
def JsVal.isArr : JsVal → Bool
  | .arr _ => true
  | _ => false

/-- `value instanceof Object` (same-realm): true exactly for arrays and plain objects. -/
def JsVal.isObjectInstance : JsVal → Bool
  | .arr _ => true
  | .obj _ => true
  | _ => false

/-- `typeof value == 'object'`: true for `null`, arrays and plain objects. -/
def JsVal.typeofObject : JsVal → Bool
  | .null => true
  | .arr _ => true
  | .obj _ => true
  | _ => false

/-- JavaScript truthiness of a value. -/
def JsVal.truthy : JsVal → Bool
  | .undefV => false
  | .null => false
  | .boolV b => b
  | .numV n => n != 0
  | .strV s => s != ""
  | .arr _ => true
  | .obj _ => true

/-- The element list of an array value (`[]` on anything else). -/
def JsVal.elems : JsVal → List JsVal
  | .arr xs => xs
  | _ => []

/-- `Object.keys(value)`: field names of an object, canonical index strings of
an array.  (String-valued primitives never flow into the merge functions, so
their index keys are not modelled.) -/
def JsVal.keys : JsVal → List String
  | .obj fs => fs.map Prod.fst
  | .arr xs => (List.range xs.length).map (fun i => toString i)
  | _ => []

/-- `value[k]`: property lookup, yielding `undefined` when the property is
absent.  Array lookup matches the canonical index strings produced by
`Object.keys`. -/
def JsVal.getProp : JsVal → String → JsVal
  | .obj fs, k =>
    match fs.find? (fun p => p.1 == k) with
    | some p => p.2
    | none => .undefV
  | .arr xs, k =>
    match (List.range xs.length).find? (fun i => toString i == k) with
    | some i => xs.getD i .undefV
    | none => .undefV
  | _, _ => .undefV

/-- First-occurrence deduplication, as performed by `new Set([...])` followed
by `Array.from`. -/
def dedupFirstAux : List String → List String → List String
  | _, [] => []
  | seen, k :: rest =>
    if seen.contains k then dedupFirstAux seen rest
    else k :: dedupFirstAux (k :: seen) rest

def dedupFirst (l : List String) : List String :=
  dedupFirstAux [] l

/-- `Array.from(new Set([...Object.keys(a), ...Object.keys(b)]))`. -/
def keySet (a b : JsVal) : List String :=
  dedupFirst (a.keys ++ b.keys)

/-! Size lemmas used for the termination of the recursive merges. -/

theorem sizeOf_snd_lt_of_mem {p : String × JsVal} {fs : List (String × JsVal)}
    (h : p ∈ fs) : sizeOf p.2 < sizeOf fs := by
  have h1 : sizeOf p < sizeOf fs := List.sizeOf_lt_of_mem h
  have h2 : sizeOf p.2 < sizeOf p := by
    cases p with
    | mk a b => simp only [Prod.mk.sizeOf_spec]; omega
  omega

theorem sizeOf_getProp_lt {d : JsVal} {k : String}
    (h : (d.getProp k).isUndefV = false) : sizeOf (d.getProp k) < sizeOf d := by
  cases d with
  | undefV => simp [JsVal.getProp, JsVal.isUndefV] at h
  | null => simp [JsVal.getProp, JsVal.isUndefV] at h
  | boolV b => simp [JsVal.getProp, JsVal.isUndefV] at h
  | numV n => simp [JsVal.getProp, JsVal.isUndefV] at h
  | strV s => simp [JsVal.getProp, JsVal.isUndefV] at h
  | obj fs =>
    simp only [JsVal.getProp] at h ⊢
    cases hf : fs.find? (fun p => p.1 == k) with
    | none => rw [hf] at h; simp [JsVal.isUndefV] at h
    | some p =>
      show sizeOf p.2 < sizeOf (JsVal.obj fs)
      have hm : p ∈ fs := List.mem_of_find?_eq_some hf
      have h1 := sizeOf_snd_lt_of_mem hm
      have h2 : sizeOf fs < sizeOf (JsVal.obj fs) := by
        simp only [JsVal.obj.sizeOf_spec]; omega
      omega
  | arr xs =>
    simp only [JsVal.getProp] at h ⊢
    cases hf : (List.range xs.length).find? (fun i => toString i == k) with
    | none => rw [hf] at h; simp [JsVal.isUndefV] at h
    | some i =>
      show sizeOf (xs.getD i JsVal.undefV) < sizeOf (JsVal.arr xs)
      have hm : i ∈ List.range xs.length := List.mem_of_find?_eq_some hf
      have hi : i < xs.length := List.mem_range.mp hm
      have hget : xs.getD i JsVal.undefV = xs[i] := List.getD_eq_getElem xs JsVal.undefV hi
      rw [hget]
      have hmem : xs[i] ∈ xs := List.getElem_mem hi
      have h1 : sizeOf xs[i] < sizeOf xs := List.sizeOf_lt_of_mem hmem
      have h2 : sizeOf xs < sizeOf (JsVal.arr xs) := by
        simp only [JsVal.arr.sizeOf_spec]; omega
      omega

theorem isUndef_false_of_typeofObject {v : JsVal} (h : v.typeofObject = true) :
    v.isUndefV = false := by
  cases v <;> simp_all [JsVal.typeofObject, JsVal.isUndefV]

theorem isUndef_false_of_isObjectInstance {v : JsVal} (h : v.isObjectInstance = true) :
    v.isUndefV = false := by
  cases v <;> simp_all [JsVal.isObjectInstance, JsVal.isUndefV]

/-!
## `mergeData` (src/data/data-operation.ts, lines 15–42)

```ts
export function mergeData<T1 extends object, T2 extends object>(data1, data2) {
  const keys = Array.from(new Set([...Object.keys(data1), ...Object.keys(data2)]));
  const output = {} as T1 & T2;
  keys.forEach((key) => {
    const value1 = data1[key];
    const value2 = data2[key];
    if (typeof value1 == 'object' && typeof value2 == 'object' &&
        value1 !== null && value2 !== null) {
      output[key] = mergeData(value1, value2);
      return;
    }
    if (value2 !== undefined) { output[key] = value2; return; }
    output[key] = value1;
  });
  return output;
}
```

`mergeDataGo` is the `keys.forEach` loop, producing the fields of the fresh
`output` object in key order; the recursive call builds the nested output
object from the nested key set, exactly as the source recursion does.
-/

def mergeDataGo (d1 d2 : JsVal) (ks : List String) : List (String × JsVal) :=
  match ks with
  | [] => []
  | key :: rest =>
    let value1 := d1.getProp key
    let value2 := d2.getProp key
    if h : (value1.typeofObject && value2.typeofObject &&
            !value1.isNullV && !value2.isNullV) = true then
      (key, JsVal.obj (mergeDataGo value1 value2 (keySet value1 value2))) ::
        mergeDataGo d1 d2 rest
    else if value2.isUndefV = false then
      (key, value2) :: mergeDataGo d1 d2 rest
    else
      (key, value1) :: mergeDataGo d1 d2 rest
termination_by (sizeOf d1 + sizeOf d2, ks.length)
decreasing_by
  all_goals first
    | (apply Prod.Lex.right; simp)
    | (apply Prod.Lex.left
       simp only [Bool.and_eq_true] at h
       have h1 : sizeOf (d1.getProp key) < sizeOf d1 :=
         sizeOf_getProp_lt (isUndef_false_of_typeofObject h.1.1.1)
       have h2 : sizeOf (d2.getProp key) < sizeOf d2 :=
         sizeOf_getProp_lt (isUndef_false_of_typeofObject h.1.1.2)
       omega)

/-- `mergeData`: merges `data2` onto `data1`, returning a freshly built plain
object. -/
def mergeData (d1 d2 : JsVal) : JsVal :=
  JsVal.obj (mergeDataGo d1 d2 (keySet d1 d2))

/-!
## `mergeDefault` (src/data/data-operation.ts, lines 52–99)

```ts
export function mergeDefault<T extends object>(data, defaultData) {
  const result: Record<string, any> = {};
  const keySet = new Set([...Object.keys(data), ...Object.keys(defaultData)]);
  for (const key of keySet) {
    const value: any = data[key];
    const defaultValue: any = defaultData[key];
    if (defaultValue && defaultValue instanceof Object) {
      const objValue =
        value && value instanceof Object && !Array.isArray(value) ? value : {};
      result[key] = mergeDefault(objValue, defaultValue);
      continue;
    }
    if (Array.isArray(defaultValue)) {
      if (Array.isArray(value)) {
        for (const element of value)
          if (element instanceof Object)
            throw new Error(`Invalid data: Array of object is not supported in key ${key}`);
        result[key] = value.slice();
        continue;
      }
      for (const element of defaultValue)
        if (element instanceof Object)
          throw new Error(`Invalid default data: Array of object is not supported in key ${key}`);
      result[key] = defaultValue.slice();
      continue;
    }
    result[key] = value === undefined ? defaultValue : value;
  }
  return result as T;
}
```

`mergeDefaultGo` is the `for (const key of keySet)` loop; a thrown `Error`
is embedded as `Except.error` carrying the message.  Note that every branch,
including the (as it turns out unreachable) `Array.isArray(defaultValue)`
branch, is embedded exactly as written.
-/

def mergeDefaultGo (data dflt : JsVal) (ks : List String) :
    Except String (List (String × JsVal)) :=
  match ks with
  | [] => .ok []
  | key :: rest =>
    let value := data.getProp key
    let defaultValue := dflt.getProp key
    if h : (defaultValue.truthy && defaultValue.isObjectInstance) = true then
      let objValue :=
        if (value.truthy && value.isObjectInstance && !value.isArr) = true
        then value else JsVal.obj []
      match mergeDefaultGo objValue defaultValue (keySet objValue defaultValue) with
      | .error e => .error e
      | .ok fs =>
        match mergeDefaultGo data dflt rest with
        | .error e => .error e
        | .ok rest2 => .ok ((key, JsVal.obj fs) :: rest2)
    else if defaultValue.isArr = true then
      if value.isArr = true then
        if value.elems.any (fun e => e.isObjectInstance) then
          .error ("Invalid data: Array of object is not supported in key " ++ key)
        else
          match mergeDefaultGo data dflt rest with
          | .error e => .error e
          | .ok rest2 => .ok ((key, JsVal.arr value.elems) :: rest2)
      else
        if defaultValue.elems.any (fun e => e.isObjectInstance) then
          .error ("Invalid default data: Array of object is not supported in key " ++ key)
        else
          match mergeDefaultGo data dflt rest with
          | .error e => .error e
          | .ok rest2 => .ok ((key, JsVal.arr defaultValue.elems) :: rest2)
    else
      match mergeDefaultGo data dflt rest with
      | .error e => .error e
      | .ok rest2 =>
        .ok ((key, if value.isUndefV = true then defaultValue else value) :: rest2)
termination_by (sizeOf dflt, ks.length)
decreasing_by
  all_goals first
    | (apply Prod.Lex.right; simp)
    | (apply Prod.Lex.left
       simp only [Bool.and_eq_true] at h
       exact sizeOf_getProp_lt (isUndef_false_of_isObjectInstance h.2))

/-- `mergeDefault`: deep-merges data over a default object. -/
def mergeDefault (data dflt : JsVal) : Except String JsVal :=
  match mergeDefaultGo data dflt (keySet data dflt) with
  | .error e => .error e
  | .ok fs => .ok (JsVal.obj fs)

/-! ### Library lemmas about the key-set construction and object lookup -/

theorem mem_dedupFirstAux {k : String} :
    ∀ (l seen : List String), k ∈ dedupFirstAux seen l ↔ (k ∈ l ∧ k ∉ seen) := by
  intro l
  induction l with
  | nil => intro seen; simp [dedupFirstAux]
  | cons a rest ih =>
    intro seen
    rw [dedupFirstAux]
    by_cases ha : seen.contains a
    · rw [if_pos ha]
      have hamem : a ∈ seen := by
        simpa using ha
      rw [ih seen]
      constructor
      · exact fun ⟨h1, h2⟩ => ⟨List.mem_cons_of_mem a h1, h2⟩
      · rintro ⟨h1, h2⟩
        rcases List.mem_cons.mp h1 with rfl | h1
        · exact absurd hamem h2
        · exact ⟨h1, h2⟩
    · rw [if_neg ha]
      have hanot : a ∉ seen := by
        intro hc
        exact ha (by simpa using hc)
      constructor
      · intro h
        rcases List.mem_cons.mp h with rfl | h
        · exact ⟨List.mem_cons_self _ _, hanot⟩
        · obtain ⟨h1, h2⟩ := (ih (a :: seen)).mp h
          exact ⟨List.mem_cons_of_mem a h1, fun hc => h2 (List.mem_cons_of_mem a hc)⟩
      · rintro ⟨h1, h2⟩
        rcases List.mem_cons.mp h1 with rfl | h1
        · exact List.mem_cons_self _ _
        · by_cases hka : k = a
          · subst hka; exact List.mem_cons_self _ _
          · exact List.mem_cons_of_mem _ ((ih (a :: seen)).mpr
              ⟨h1, by simp [hka, h2]⟩)

theorem mem_dedupFirst {k : String} {l : List String} :
    k ∈ dedupFirst l ↔ k ∈ l := by
  rw [dedupFirst, mem_dedupFirstAux]
  simp

theorem mem_keySet {k : String} {a b : JsVal} :
    k ∈ keySet a b ↔ (k ∈ a.keys ∨ k ∈ b.keys) := by
  rw [keySet, mem_dedupFirst]
  simp

/-- Lookup on a freshly built object, one field at a time. -/
theorem getProp_obj_cons (key : String) (v : JsVal) (fs : List (String × JsVal)) (k : String) :
    JsVal.getProp (.obj ((key, v) :: fs)) k =
      if key = k then v else JsVal.getProp (.obj fs) k := by
  simp only [JsVal.getProp]
  rw [List.find?]
  by_cases h : key = k
  · subst h; simp
  · simp only [h, if_false]
    have : ((key, v).1 == k) = false := by
      simp [h]
    rw [this]

/-- Lookup in an object whose fields were produced by mapping a function over
a key list. -/
theorem getProp_obj_map (f : String → JsVal) :
    ∀ (ks : List String) (k : String), k ∈ ks →
      JsVal.getProp (.obj (ks.map (fun x => (x, f x)))) k = f k := by
  intro ks
  induction ks with
  | nil => intro k h; simp at h
  | cons a rest ih =>
    intro k hk
    rw [List.map_cons, getProp_obj_cons]
    by_cases h : a = k
    · subst h; simp
    · rw [if_neg h]
      exact ih k ((List.mem_cons.mp hk).resolve_left (fun he => h he.symm))

/-! ### The per-key value of `mergeData` -/

/-- The value `mergeData` stores at one key: recursive merge when both values
are non-null objects, else `data2`'s value when defined, else `data1`'s. -/
def mergeDataVal (d1 d2 : JsVal) (k : String) : JsVal :=
  let value1 := d1.getProp k
  let value2 := d2.getProp k
  if (value1.typeofObject && value2.typeofObject &&
      !value1.isNullV && !value2.isNullV) = true
  then mergeData value1 value2
  else if value2.isUndefV = false then value2 else value1

theorem mergeDataGo_eq_map (d1 d2 : JsVal) :
    ∀ ks, mergeDataGo d1 d2 ks = ks.map (fun k => (k, mergeDataVal d1 d2 k)) := by
  intro ks
  induction ks with
  | nil => rw [mergeDataGo]; simp
  | cons key rest ih =>
    rw [mergeDataGo]
    by_cases hb : (((d1.getProp key).typeofObject && (d2.getProp key).typeofObject &&
        !(d1.getProp key).isNullV && !(d2.getProp key).isNullV) = true)
    · rw [dif_pos hb, List.map_cons, ih]
      have : mergeDataVal d1 d2 key = mergeData (d1.getProp key) (d2.getProp key) := by
        rw [mergeDataVal]
        simp only [hb, if_true]
      rw [this, mergeData]
    · rw [dif_neg hb, List.map_cons, ih]
      have hv : mergeDataVal d1 d2 key =
          (if (d2.getProp key).isUndefV = false then d2.getProp key else d1.getProp key) := by
        rw [mergeDataVal]
        simp [hb]
      by_cases h2 : (d2.getProp key).isUndefV = false
      · rw [if_pos h2, hv, if_pos h2]
      · rw [if_neg h2, hv, if_neg h2]

/-! ### Branch analysis of `mergeDefault` -/

/-- An array is a truthy `Object` instance, so a false object-branch guard
means the default value is not an array either: the
`Array.isArray(defaultValue)` branch of `mergeDefault` is unreachable. -/
theorem isArr_false_of_guard_false {v : JsVal}
    (hb : (v.truthy && v.isObjectInstance) = false) : v.isArr = false := by
  cases v <;> simp_all [JsVal.truthy, JsVal.isObjectInstance, JsVal.isArr]

/-- The `objValue` the source builds before recursing: `data`'s value when it
is a truthy non-array object, else a fresh empty object. -/
def mdObjValue (data : JsVal) (key : String) : JsVal :=
  if ((data.getProp key).truthy && (data.getProp key).isObjectInstance &&
      !(data.getProp key).isArr) = true
  then data.getProp key else JsVal.obj []

theorem mergeDefaultGo_cons_obj (data dflt : JsVal) (key : String) (rest : List String)
    (hb : ((dflt.getProp key).truthy && (dflt.getProp key).isObjectInstance) = true) :
    mergeDefaultGo data dflt (key :: rest) =
      match mergeDefaultGo (mdObjValue data key) (dflt.getProp key)
              (keySet (mdObjValue data key) (dflt.getProp key)) with
      | .error e => .error e
      | .ok fs =>
        match mergeDefaultGo data dflt rest with
        | .error e => .error e
        | .ok rest2 => .ok ((key, JsVal.obj fs) :: rest2) := by
  rw [mergeDefaultGo, dif_pos hb]
  rfl

theorem mergeDefaultGo_cons_scalar (data dflt : JsVal) (key : String) (rest : List String)
    (hb : ((dflt.getProp key).truthy && (dflt.getProp key).isObjectInstance) = false) :
    mergeDefaultGo data dflt (key :: rest) =
      match mergeDefaultGo data dflt rest with
      | .error e => .error e
      | .ok rest2 =>
        .ok ((key, if (data.getProp key).isUndefV = true then dflt.getProp key
                   else data.getProp key) :: rest2) := by
  have ha := isArr_false_of_guard_false hb
  rw [mergeDefaultGo, dif_neg (by simp [hb]), if_neg (by simp [ha])]

/-- The central lemma about `mergeDefault`'s loop: it always succeeds, the
produced fields are exactly the processed keys in order, and at every key
whose default value is not an `Object` instance the stored value is `data`'s
value when defined and the default value otherwise. -/
theorem mergeDefaultGo_spec :
    ∀ (n : Nat) (dflt : JsVal), sizeOf dflt ≤ n → ∀ (data : JsVal) (ks : List String),
      ∃ fs, mergeDefaultGo data dflt ks = .ok fs ∧
        fs.map Prod.fst = ks ∧
        ∀ k, k ∈ ks → (dflt.getProp k).isObjectInstance = false →
          JsVal.getProp (.obj fs) k =
            (if (data.getProp k).isUndefV = true then dflt.getProp k
             else data.getProp k) := by
  intro n
  induction n using Nat.strong_induction_on with
  | _ n IH =>
    intro dflt hn data ks
    induction ks with
    | nil =>
      refine ⟨[], ?_, rfl, ?_⟩
      · rw [mergeDefaultGo]
      · intro k hk
        simp at hk
    | cons key rest IHrest =>
      obtain ⟨fsr, hgor, hmapr, hlookr⟩ := IHrest
      by_cases hb : ((dflt.getProp key).truthy && (dflt.getProp key).isObjectInstance) = true
      · have hio : (dflt.getProp key).isObjectInstance = true := by
          simp only [Bool.and_eq_true] at hb
          exact hb.2
        have hdvsz : sizeOf (dflt.getProp key) < sizeOf dflt :=
          sizeOf_getProp_lt (isUndef_false_of_isObjectInstance hio)
        obtain ⟨fs1, hgo1, hmap1, hlook1⟩ :=
          IH (sizeOf (dflt.getProp key)) (by omega) (dflt.getProp key) le_rfl
            (mdObjValue data key) (keySet (mdObjValue data key) (dflt.getProp key))
        refine ⟨(key, JsVal.obj fs1) :: fsr, ?_, ?_, ?_⟩
        · rw [mergeDefaultGo_cons_obj data dflt key rest hb, hgo1, hgor]
        · simp [hmapr]
        · intro k hk hscalar
          rw [getProp_obj_cons]
          by_cases hkeq : key = k
          · subst hkeq
            simp [hio] at hscalar
          · rw [if_neg hkeq]
            exact hlookr k ((List.mem_cons.mp hk).resolve_left
              (fun he => hkeq he.symm)) hscalar
      · have hb2 : ((dflt.getProp key).truthy && (dflt.getProp key).isObjectInstance) = false := by
          simpa using hb
        refine ⟨(key, if (data.getProp key).isUndefV = true then dflt.getProp key
                      else data.getProp key) :: fsr, ?_, ?_, ?_⟩
        · rw [mergeDefaultGo_cons_scalar data dflt key rest hb2, hgor]
        · simp [hmapr]
        · intro k hk hscalar
          rw [getProp_obj_cons]
          by_cases hkeq : key = k
          · subst hkeq
            rw [if_pos rfl]
          · rw [if_neg hkeq]
            exact hlookr k ((List.mem_cons.mp hk).resolve_left
              (fun he => hkeq he.symm)) hscalar

/-! ## Claim theorems for the merge functions -/

/-- **C1** (evaluation at the failing input).  The claim states that with
default `{k: [1,2,3]}` and data `{k: [4,5]}`, `mergeDefault` returns `{k}`
bound to a copy of the data array `[4,5]` (and a copy of the default array
when the data value is missing or not an array).  The code does neither:
since an array satisfies `defaultValue instanceof Object`, the object branch
fires, the array-valued `data[k]` is discarded (`objValue = {}`), and the
default array is itself merged as a generic object, producing the index-keyed
plain object `{“0”:1, “1”:2, “2”:3}` instead of any array. -/
theorem mergeDefault_array_default_eval :
    mergeDefault (JsVal.obj [("k", .arr [.numV 4, .numV 5])])
      (JsVal.obj [("k", .arr [.numV 1, .numV 2, .numV 3])]) =
    .ok (JsVal.obj [("k", JsVal.obj [("0", .numV 1), ("1", .numV 2), ("2", .numV 3)])]) := by
  have h0 : toString (0 : Nat) = "0" := rfl
  have h1 : toString (1 : Nat) = "1" := rfl
  have h2 : toString (2 : Nat) = "2" := rfl
  simp [mergeDefault, mergeDefaultGo, keySet, dedupFirst, dedupFirstAux, JsVal.keys,
    JsVal.getProp, JsVal.truthy, JsVal.isObjectInstance, JsVal.isArr, JsVal.isUndefV,
    JsVal.elems, List.range, List.find?, h0, h1, h2]

/-- **C2** (evaluation at the failing input).  The claim states that with
default `{k: []}` and data `{k: [{a:1}]}` the merge fails with an
"array of object is not supported" error.  It does not: the `instanceof
Object` guard captures the array default first, `objValue` becomes `{}`
because the data value is an array, and merging `{}` onto `[]` yields the
empty object, so the call succeeds with `{k: {}}`; the element scan that
raises the error is unreachable. -/
theorem mergeDefault_array_of_object_eval :
    mergeDefault (JsVal.obj [("k", .arr [.obj [("a", .numV 1)]])])
      (JsVal.obj [("k", .arr [])]) =
    .ok (JsVal.obj [("k", JsVal.obj [])]) := by
  simp [mergeDefault, mergeDefaultGo, keySet, dedupFirst, dedupFirstAux, JsVal.keys,
    JsVal.getProp, JsVal.truthy, JsVal.isObjectInstance, JsVal.isArr, JsVal.isUndefV,
    JsVal.elems, List.range, List.find?]

/-- **C3**: `mergeDefault(P, default(T))` succeeds with an object containing
every key of `T` and every key of `P`; at every key whose default value is a
scalar (not an `Object` instance), the result holds `P`'s value when `P`
defines the key (lookup is not `undefined`) and the default value
otherwise. -/
theorem mergeDefault_keys_and_scalar_values (data dflt : JsVal) :
    ∃ fs, mergeDefault data dflt = .ok (.obj fs) ∧
      (∀ k, k ∈ data.keys ∨ k ∈ dflt.keys → k ∈ fs.map Prod.fst) ∧
      (∀ k, k ∈ keySet data dflt → (dflt.getProp k).isObjectInstance = false →
        JsVal.getProp (.obj fs) k =
          (if (data.getProp k).isUndefV = true then dflt.getProp k
           else data.getProp k)) := by
  obtain ⟨fs, hgo, hmap, hlook⟩ :=
    mergeDefaultGo_spec (sizeOf dflt) dflt le_rfl data (keySet data dflt)
  refine ⟨fs, ?_, ?_, hlook⟩
  · rw [mergeDefault, hgo]
  · intro k hk
    rw [hmap]
    exact mem_keySet.mpr hk

/-- Witness for C3 at a concrete input: data `{a:"x"}`, default
`{a:"d", b:7}`; the scalar key `b` (absent from data) gets the default `7`,
the scalar key `a` (present in data) keeps `"x"`. -/
theorem mergeDefault_keys_and_scalar_values_witness :
    ∃ fs, mergeDefault (JsVal.obj [("a", .strV "x")])
        (JsVal.obj [("a", .strV "d"), ("b", .numV 7)]) = .ok (.obj fs) ∧
      JsVal.getProp (.obj fs) "b" = .numV 7 ∧
      JsVal.getProp (.obj fs) "a" = .strV "x" := by
  obtain ⟨fs, h1, _, h3⟩ := mergeDefault_keys_and_scalar_values
    (JsVal.obj [("a", .strV "x")]) (JsVal.obj [("a", .strV "d"), ("b", .numV 7)])
  refine ⟨fs, h1, ?_, ?_⟩
  · rw [h3 "b" (by decide) (by decide)]
    simp [JsVal.getProp, JsVal.isUndefV, List.find?]
  · rw [h3 "a" (by decide) (by decide)]
    simp [JsVal.getProp, JsVal.isUndefV, List.find?]

/-- **C10**: whenever both inputs of `mergeData` hold arrays at a common key,
the function recurses into them as generic objects (`typeof [] == 'object'`)
and the result at that key is the index-keyed plain object produced by that
recursion — never an array; concretely, merging `[1,2]` with `[3]` yields
`{"0": 3, "1": 2}`. -/
theorem mergeData_arrays_become_objects :
    (∀ (d1 d2 : JsVal) (k : String) (xs ys : List JsVal),
      d1.getProp k = .arr xs → d2.getProp k = .arr ys → k ∈ keySet d1 d2 →
      JsVal.getProp (mergeData d1 d2) k = mergeData (.arr xs) (.arr ys) ∧
      ∃ fs, mergeData (.arr xs) (.arr ys) = JsVal.obj fs) ∧
    mergeData (.arr [.numV 1, .numV 2]) (.arr [.numV 3]) =
      JsVal.obj [("0", .numV 3), ("1", .numV 2)] := by
  constructor
  · intro d1 d2 k xs ys h1 h2 hk
    constructor
    · rw [mergeData, mergeDataGo_eq_map, getProp_obj_map _ _ k hk, mergeDataVal]
      simp only [h1, h2]
      rw [if_pos (by simp [JsVal.typeofObject, JsVal.isNullV])]
    · exact ⟨_, rfl⟩
  · have h0 : toString (0 : Nat) = "0" := rfl
    have h1 : toString (1 : Nat) = "1" := rfl
    simp [mergeData, mergeDataGo, keySet, dedupFirst, dedupFirstAux, JsVal.keys,
      JsVal.getProp, JsVal.typeofObject, JsVal.isNullV, JsVal.isUndefV, List.range,
      List.find?, h0, h1]

/-- Witness for C10 at a concrete input: `{k:[1,2]}` merged with `{k:[3]}`. -/
theorem mergeData_arrays_become_objects_witness :
    JsVal.getProp (mergeData (JsVal.obj [("k", .arr [.numV 1, .numV 2])])
        (JsVal.obj [("k", .arr [.numV 3])])) "k" =
      mergeData (.arr [.numV 1, .numV 2]) (.arr [.numV 3]) := by
  exact (mergeData_arrays_become_objects.1 (JsVal.obj [("k", .arr [.numV 1, .numV 2])])
    (JsVal.obj [("k", .arr [.numV 3])]) "k" [.numV 1, .numV 2] [.numV 3]
    rfl rfl (by decide)).1

/-!
## `deepFreeze` (src/data/data-operation.ts, lines 106–115)

```ts
export function deepFreeze<T>(obj: T): T {
  if (obj === null || typeof obj !== 'object') { return obj; }
  Object.freeze(obj);
  for (const value of Object.values(obj)) { deepFreeze(value); }
  return obj;
}
```

For the freezing claims the runtime value is enriched with the freeze state
`Object.freeze` installs: `FVal` is the value type of `JsVal` with a
`frozen` flag on every array and object node (element and field spines are
their own mutual inductives so that the recursion stays structural).
`deepFreeze` mutates in place and returns its argument; in this value-level
model the returned value is the argument with every flag set, and "same
reference" is expressed by erasure of the freeze state
(`eraseFrozen (deepFreeze v) = eraseFrozen v`: the underlying object graph
is untouched).  Property assignment on a frozen object is silently ignored
(non-strict mode), which `assignProp` models.
-/

inductive Prim where
  | undefV
  | null
  | boolV (b : Bool)
  | numV (n : Int)
  | strV (s : String)
deriving DecidableEq

mutual
inductive FVal where
  | prim (s : Prim)
  | arrF (frozen : Bool) (elems : FElems)
  | objF (frozen : Bool) (fields : FFields)
deriving DecidableEq
inductive FElems where
  | enil
  | econs (head : FVal) (tail : FElems)
deriving DecidableEq
inductive FFields where
  | fnil
  | fcons (key : String) (val : FVal) (tail : FFields)
deriving DecidableEq
end

mutual
/-- `deepFreeze`: freeze the node, then recursively freeze every enumerable
property value (object field values, array elements). -/
def deepFreeze : FVal → FVal
  | .prim s => .prim s
  | .arrF _ xs => .arrF true (deepFreezeElems xs)
  | .objF _ fs => .objF true (deepFreezeFields fs)
def deepFreezeElems : FElems → FElems
  | .enil => .enil
  | .econs v t => .econs (deepFreeze v) (deepFreezeElems t)
def deepFreezeFields : FFields → FFields
  | .fnil => .fnil
  | .fcons k v t => .fcons k (deepFreeze v) (deepFreezeFields t)
end

mutual
/-- Every object/array node reachable through enumerable properties is frozen. -/
def allFrozen : FVal → Bool
  | .prim _ => true
  | .arrF fr xs => fr && allFrozenElems xs
  | .objF fr fs => fr && allFrozenFields fs
def allFrozenElems : FElems → Bool
  | .enil => true
  | .econs v t => allFrozen v && allFrozenElems t
def allFrozenFields : FFields → Bool
  | .fnil => true
  | .fcons _ v t => allFrozen v && allFrozenFields t
end

mutual
/-- Forget the freeze state, leaving the underlying object graph. -/
def eraseFrozen : FVal → FVal
  | .prim s => .prim s
  | .arrF _ xs => .arrF false (eraseFrozenElems xs)
  | .objF _ fs => .objF false (eraseFrozenFields fs)
def eraseFrozenElems : FElems → FElems
  | .enil => .enil
  | .econs v t => .econs (eraseFrozen v) (eraseFrozenElems t)
def eraseFrozenFields : FFields → FFields
  | .fnil => .fnil
  | .fcons k v t => .fcons k (eraseFrozen v) (eraseFrozenFields t)
end

/-- Canonical array-index parse of a property key (the index strings
`Object.keys` produces). -/
def strToIdx (s : String) : Option Nat :=
  match s.data with
  | [] => none
  | c :: rest =>
    if c == '0' then (if rest.isEmpty then some 0 else none)
    else if (c :: rest).all Char.isDigit then
      some ((c :: rest).foldl (fun a d => a * 10 + (d.toNat - 48)) 0)
    else none

def setFieldAt : FFields → String → FVal → FFields
  | .fnil, k, w => .fcons k w .fnil
  | .fcons k2 v t, k, w =>
    if k2 == k then .fcons k2 w t else .fcons k2 v (setFieldAt t k w)

def setElemAt : FElems → Nat → FVal → FElems
  | .enil, _, _ => .enil
  | .econs _ t, 0, w => .econs w t
  | .econs v t, n + 1, w => .econs v (setElemAt t n w)

/-- One JavaScript property assignment `v[k] = w` in non-strict mode: on a
frozen object or array it is silently ignored; on an unfrozen node it stores
the value. -/
def assignProp : FVal → String → FVal → FVal
  | .objF fr fs, k, w => if fr then .objF fr fs else .objF fr (setFieldAt fs k w)
  | .arrF fr xs, k, w =>
    if fr then .arrF fr xs
    else
      match strToIdx k with
      | some i => .arrF fr (setElemAt xs i w)
      | none => .arrF fr xs
  | p, _, _ => p

def mapFieldAt : FFields → String → (FVal → FVal) → FFields
  | .fnil, _, _ => .fnil
  | .fcons k2 v t, k, f =>
    if k2 == k then .fcons k2 (f v) t else .fcons k2 v (mapFieldAt t k f)

def mapElemAt : FElems → Nat → (FVal → FVal) → FElems
  | .enil, _, _ => .enil
  | .econs v t, 0, f => .econs (f v) t
  | .econs v t, n + 1, f => .econs v (mapElemAt t n f)

/-- Rewrite the child stored at a property in place (mutating a child object
does not require the parent to be mutable). -/
def modifyChild (v : FVal) (k : String) (f : FVal → FVal) : FVal :=
  match v with
  | .objF fr fs => .objF fr (mapFieldAt fs k f)
  | .arrF fr xs =>
    match strToIdx k with
    | some i => .arrF fr (mapElemAt xs i f)
    | none => .arrF fr xs
  | p => p

/-- `v.k₁.k₂...kₙ = w`: navigate to the parent of the final property and
perform one assignment there. -/
def assignPath : List String → FVal → FVal → FVal
  | [], v, _ => v
  | [k], v, w => assignProp v k w
  | k :: rest, v, w => modifyChild v k (fun c => assignPath rest c w)

def getFieldF : FFields → String → Option FVal
  | .fnil, _ => none
  | .fcons k2 v t, k => if k2 == k then some v else getFieldF t k

def getElemF : FElems → Nat → Option FVal
  | .enil, _ => none
  | .econs v _, 0 => some v
  | .econs _ t, n + 1 => getElemF t n

def getPropF (v : FVal) (k : String) : Option FVal :=
  match v with
  | .objF _ fs => getFieldF fs k
  | .arrF _ xs =>
    match strToIdx k with
    | some i => getElemF xs i
    | none => none
  | _ => none

def getPathF : List String → FVal → Option FVal
  | [], v => some v
  | k :: rest, v =>
    match getPropF v k with
    | some c => getPathF rest c
    | none => none

/-- The spec's example object `{a: {b: 1}}`, initially unfrozen. -/
def exNested : FVal :=
  .objF false (.fcons "a" (.objF false (.fcons "b" (.prim (.numV 1)) .fnil)) .fnil)

theorem deepFreeze_allFrozen : ∀ v : FVal, allFrozen (deepFreeze v) = true :=
  @FVal.rec (fun v => allFrozen (deepFreeze v) = true)
    (fun xs => allFrozenElems (deepFreezeElems xs) = true)
    (fun fs => allFrozenFields (deepFreezeFields fs) = true)
    (fun s => by simp [deepFreeze, allFrozen])
    (fun fr xs ih => by simp [deepFreeze, allFrozen, ih])
    (fun fr fs ih => by simp [deepFreeze, allFrozen, ih])
    (by simp [deepFreezeElems, allFrozenElems])
    (fun v t ihv iht => by simp [deepFreezeElems, allFrozenElems, ihv, iht])
    (by simp [deepFreezeFields, allFrozenFields])
    (fun k v t ihv iht => by simp [deepFreezeFields, allFrozenFields, ihv, iht])

theorem deepFreeze_erase : ∀ v : FVal, eraseFrozen (deepFreeze v) = eraseFrozen v :=
  @FVal.rec (fun v => eraseFrozen (deepFreeze v) = eraseFrozen v)
    (fun xs => eraseFrozenElems (deepFreezeElems xs) = eraseFrozenElems xs)
    (fun fs => eraseFrozenFields (deepFreezeFields fs) = eraseFrozenFields fs)
    (fun s => rfl)
    (fun fr xs ih => by simp [deepFreeze, eraseFrozen, ih])
    (fun fr fs ih => by simp [deepFreeze, eraseFrozen, ih])
    rfl
    (fun v t ihv iht => by simp [deepFreezeElems, eraseFrozenElems, ihv, iht])
    rfl
    (fun k v t ihv iht => by simp [deepFreezeFields, eraseFrozenFields, ihv, iht])

theorem assignProp_frozen {v : FVal} (h : allFrozen v = true) (k : String) (w : FVal) :
    assignProp v k w = v := by
  cases v with
  | prim s => rfl
  | arrF fr xs =>
    simp only [allFrozen, Bool.and_eq_true] at h
    simp [assignProp, h.1]
  | objF fr fs =>
    simp only [allFrozen, Bool.and_eq_true] at h
    simp [assignProp, h.1]

theorem mapFieldAt_frozen_id :
    ∀ (n : Nat) (fs : FFields), sizeOf fs ≤ n → allFrozenFields fs = true →
      ∀ (k : String) (f : FVal → FVal), (∀ c, allFrozen c = true → f c = c) →
      mapFieldAt fs k f = fs := by
  intro n
  induction n using Nat.strong_induction_on with
  | _ n IH =>
    intro fs hsz hfr k f hf
    cases fs with
    | fnil => rfl
    | fcons k2 v t =>
      simp only [allFrozenFields, Bool.and_eq_true] at hfr
      have hszt : sizeOf t < sizeOf (FFields.fcons k2 v t) := by
        simp only [FFields.fcons.sizeOf_spec]; omega
      rw [mapFieldAt]
      by_cases hk : (k2 == k) = true
      · rw [if_pos hk, hf v hfr.1]
      · rw [if_neg (by simp_all)]
        rw [IH (sizeOf t) (by omega) t le_rfl hfr.2 k f hf]

theorem mapElemAt_frozen_id :
    ∀ (n : Nat) (xs : FElems), sizeOf xs ≤ n → allFrozenElems xs = true →
      ∀ (i : Nat) (f : FVal → FVal), (∀ c, allFrozen c = true → f c = c) →
      mapElemAt xs i f = xs := by
  intro n
  induction n using Nat.strong_induction_on with
  | _ n IH =>
    intro xs hsz hfr i f hf
    cases xs with
    | enil => rfl
    | econs v t =>
      simp only [allFrozenElems, Bool.and_eq_true] at hfr
      have hszt : sizeOf t < sizeOf (FElems.econs v t) := by
        simp only [FElems.econs.sizeOf_spec]; omega
      cases i with
      | zero => rw [mapElemAt, hf v hfr.1]
      | succ j =>
        rw [mapElemAt]
        rw [IH (sizeOf t) (by omega) t le_rfl hfr.2 j f hf]

theorem assignPath_frozen :
    ∀ (path : List String) (v : FVal), allFrozen v = true →
      ∀ w, assignPath path v w = v := by
  intro path
  induction path with
  | nil => intro v h w; rfl
  | cons k rest ih =>
    intro v h w
    cases rest with
    | nil => exact assignProp_frozen h k w
    | cons r rt =>
      show modifyChild v k (fun c => assignPath (r :: rt) c w) = v
      cases v with
      | prim s => rfl
      | arrF fr xs =>
        simp only [allFrozen, Bool.and_eq_true] at h
        rw [modifyChild]
        cases strToIdx k with
        | none => rfl
        | some i =>
          show FVal.arrF fr (mapElemAt xs i fun c => assignPath (r :: rt) c w) =
            FVal.arrF fr xs
          rw [mapElemAt_frozen_id (sizeOf xs) xs le_rfl h.2 i _
            (fun c hc => ih c hc w)]
      | objF fr fs =>
        simp only [allFrozen, Bool.and_eq_true] at h
        rw [modifyChild]
        rw [mapFieldAt_frozen_id (sizeOf fs) fs le_rfl h.2 k _
          (fun c hc => ih c hc w)]

/-- **C4**: `deepFreeze` leaves the underlying object graph untouched (it
returns the argument itself, now flagged frozen throughout), every object
reachable through enumerable properties is frozen, any subsequent property
assignment — at any depth — is silently ignored, primitives and `null` are
returned unchanged, and on the spec's example `{a:{b:1}}` the nested value
under `.a.b` is still `1` after freezing. -/
theorem deepFreeze_spec :
    (∀ v : FVal, eraseFrozen (deepFreeze v) = eraseFrozen v) ∧
    (∀ v : FVal, allFrozen (deepFreeze v) = true) ∧
    (∀ (v : FVal) (path : List String) (w : FVal),
      assignPath path (deepFreeze v) w = deepFreeze v) ∧
    (∀ s : Prim, deepFreeze (.prim s) = .prim s) ∧
    getPathF ["a", "b"] (deepFreeze exNested) = some (.prim (.numV 1)) := by
  refine ⟨deepFreeze_erase, deepFreeze_allFrozen, ?_, fun s => rfl, by decide⟩
  intro v path w
  exact assignPath_frozen path (deepFreeze v) (deepFreeze_allFrozen v) w

/-!
## Store-level model of `mergeDefault` (for the frame claim)

To state that `mergeDefault` never mutates its arguments and returns a newly
constructed object, the object store is made explicit: a `Heap` is the list
of allocated objects (the address of a cell is its index, allocation
appends), and a runtime value `HVal` is a primitive or a reference into the
heap.  `mergeDefaultH` is the same algorithm as `mergeDefault` above, with
every object creation (`{}` for `objValue`, `value.slice()`,
`defaultValue.slice()`, and the `result` object itself) performed as an
allocation.  The explicit `fuel` bounds the recursion depth (the recursion
of the source is through the heap, where a termination measure is not
structural); the frame property below holds for every fuel value.
-/

inductive HVal where
  | undefV
  | null
  | boolV (b : Bool)
  | numV (n : Int)
  | strV (s : String)
  | ref (a : Nat)
deriving DecidableEq

inductive HObj where
  | harr (elems : List HVal)
  | hdict (fields : List (String × HVal))
deriving DecidableEq

abbrev Heap := List HObj

def htruthy : HVal → Bool
  | .undefV => false
  | .null => false
  | .boolV b => b
  | .numV n => n != 0
  | .strV s => s != ""
  | .ref _ => true

/-- `v instanceof Object`: every reference points at an array or plain
object. -/
def hIsObject : HVal → Bool
  | .ref _ => true
  | _ => false

def hIsArray (h : Heap) : HVal → Bool
  | .ref a =>
    match h[a]? with
    | some (.harr _) => true
    | _ => false
  | _ => false

def hElems (h : Heap) : HVal → List HVal
  | .ref a =>
    match h[a]? with
    | some (.harr xs) => xs
    | _ => []
  | _ => []

def hKeys (h : Heap) : HVal → List String
  | .ref a =>
    match h[a]? with
    | some (.hdict fs) => fs.map Prod.fst
    | some (.harr xs) => (List.range xs.length).map (fun i => toString i)
    | none => []
  | _ => []

def hGetProp (h : Heap) (v : HVal) (k : String) : HVal :=
  match v with
  | .ref a =>
    match h[a]? with
    | some (.hdict fs) =>
      match fs.find? (fun p => p.1 == k) with
      | some p => p.2
      | none => .undefV
    | some (.harr xs) =>
      match (List.range xs.length).find? (fun i => toString i == k) with
      | some i => xs.getD i .undefV
      | none => .undefV
    | none => .undefV
  | _ => .undefV

def keySetH (h : Heap) (a b : HVal) : List String :=
  dedupFirst (hKeys h a ++ hKeys h b)

/-- The key loop of `mergeDefault` over an explicit heap.  The result field
list is accumulated and the `result` object allocated by the caller
(`mergeDefaultH`); inner recursive merges allocate their own result objects,
and the `{}` fallback for `objValue` and both `slice()` copies allocate
fresh cells exactly where the source constructs fresh objects. -/
def mergeDefaultHGo : Nat → Heap → HVal → HVal → List String →
    Heap × Except String (List (String × HVal))
  | 0, h, _, _, _ => (h, .error "recursion fuel exhausted")
  | _ + 1, h, _, _, [] => (h, .ok [])
  | fuel + 1, h, data, dflt, key :: rest =>
    let value := hGetProp h data key
    let defaultValue := hGetProp h dflt key
    if (htruthy defaultValue && hIsObject defaultValue) = true then
      -- `objValue` is `value` when it is a truthy non-array object; otherwise
      -- a fresh `{}` is allocated first.
      if (htruthy value && hIsObject value && !hIsArray h value) = true then
        match mergeDefaultHGo fuel h value defaultValue
                (keySetH h value defaultValue) with
        | (h2, .error e) => (h2, .error e)
        | (h2, .ok fs) =>
          match mergeDefaultHGo fuel (h2 ++ [HObj.hdict fs]) data dflt rest with
          | (h4, .error e) => (h4, .error e)
          | (h4, .ok rest2) => (h4, .ok ((key, HVal.ref h2.length) :: rest2))
      else
        match mergeDefaultHGo fuel (h ++ [HObj.hdict []]) (HVal.ref h.length)
                defaultValue
                (keySetH (h ++ [HObj.hdict []]) (HVal.ref h.length) defaultValue) with
        | (h2, .error e) => (h2, .error e)
        | (h2, .ok fs) =>
          match mergeDefaultHGo fuel (h2 ++ [HObj.hdict fs]) data dflt rest with
          | (h4, .error e) => (h4, .error e)
          | (h4, .ok rest2) => (h4, .ok ((key, HVal.ref h2.length) :: rest2))
    else if hIsArray h defaultValue = true then
      if hIsArray h value = true then
        if (hElems h value).any (fun e => hIsObject e) then
          (h, .error ("Invalid data: Array of object is not supported in key " ++ key))
        else
          let copied := HVal.ref h.length
          match mergeDefaultHGo fuel (h ++ [HObj.harr (hElems h value)]) data dflt rest with
          | (h4, .error e) => (h4, .error e)
          | (h4, .ok rest2) => (h4, .ok ((key, copied) :: rest2))
      else
        if (hElems h defaultValue).any (fun e => hIsObject e) then
          (h, .error ("Invalid default data: Array of object is not supported in key " ++ key))
        else
          let copied := HVal.ref h.length
          match mergeDefaultHGo fuel (h ++ [HObj.harr (hElems h defaultValue)]) data dflt rest with
          | (h4, .error e) => (h4, .error e)
          | (h4, .ok rest2) => (h4, .ok ((key, copied) :: rest2))
    else
      match mergeDefaultHGo fuel h data dflt rest with
      | (h4, .error e) => (h4, .error e)
      | (h4, .ok rest2) =>
        (h4, .ok ((key, if value = HVal.undefV then defaultValue else value) :: rest2))

/-- `mergeDefault` over an explicit heap: run the key loop, then allocate the
`result` object.  The returned heap reflects all mutations performed by the
call (also when it throws). -/
def mergeDefaultH (fuel : Nat) (h : Heap) (data dflt : HVal) :
    Heap × Except String HVal :=
  match mergeDefaultHGo fuel h data dflt (keySetH h data dflt) with
  | (h2, .error e) => (h2, .error e)
  | (h2, .ok fs) => (h2 ++ [HObj.hdict fs], .ok (HVal.ref h2.length))

/-- The loop only ever allocates: the heap after the loop extends the heap
before it. -/
theorem mergeDefaultHGo_extends :
    ∀ (fuel : Nat) (h : Heap) (data dflt : HVal) (ks : List String),
      ∃ tail, (mergeDefaultHGo fuel h data dflt ks).1 = h ++ tail := by
  intro fuel
  induction fuel with
  | zero => intro h data dflt ks; exact ⟨[], by simp [mergeDefaultHGo]⟩
  | succ n IH =>
    intro h data dflt ks
    cases ks with
    | nil => exact ⟨[], by simp [mergeDefaultHGo]⟩
    | cons key rest =>
      rw [mergeDefaultHGo]
      by_cases hb : (htruthy (hGetProp h dflt key) && hIsObject (hGetProp h dflt key)) = true
      · rw [if_pos hb]
        by_cases hov : (htruthy (hGetProp h data key) && hIsObject (hGetProp h data key) &&
            !hIsArray h (hGetProp h data key)) = true
        · rw [if_pos hov]
          obtain ⟨t1, ht1⟩ := IH h (hGetProp h data key) (hGetProp h dflt key)
            (keySetH h (hGetProp h data key) (hGetProp h dflt key))
          rcases hm1 : mergeDefaultHGo n h (hGetProp h data key) (hGetProp h dflt key)
            (keySetH h (hGetProp h data key) (hGetProp h dflt key)) with ⟨h2, r1⟩
          rw [hm1] at ht1
          cases r1 with
          | error e => exact ⟨t1, by simp only [hm1]; exact ht1⟩
          | ok fs =>
            obtain ⟨t2, ht2⟩ := IH (h2 ++ [HObj.hdict fs]) data dflt rest
            rcases hm2 : mergeDefaultHGo n (h2 ++ [HObj.hdict fs]) data dflt rest with ⟨h4, r2⟩
            rw [hm2] at ht2
            refine ⟨t1 ++ [HObj.hdict fs] ++ t2, ?_⟩
            cases r2 with
            | error e =>
              simp only [hm1, hm2]
              simp only at ht1 ht2
              rw [ht2, ht1]
              simp [List.append_assoc]
            | ok rest2 =>
              simp only [hm1, hm2]
              simp only at ht1 ht2
              rw [ht2, ht1]
              simp [List.append_assoc]
        · rw [if_neg hov]
          obtain ⟨t1, ht1⟩ := IH (h ++ [HObj.hdict []]) (HVal.ref h.length)
            (hGetProp h dflt key)
            (keySetH (h ++ [HObj.hdict []]) (HVal.ref h.length) (hGetProp h dflt key))
          rcases hm1 : mergeDefaultHGo n (h ++ [HObj.hdict []]) (HVal.ref h.length)
            (hGetProp h dflt key)
            (keySetH (h ++ [HObj.hdict []]) (HVal.ref h.length) (hGetProp h dflt key))
            with ⟨h2, r1⟩
          rw [hm1] at ht1
          cases r1 with
          | error e =>
            refine ⟨[HObj.hdict []] ++ t1, ?_⟩
            simp only [hm1]
            simp only at ht1
            rw [ht1]
            simp [List.append_assoc]
          | ok fs =>
            obtain ⟨t2, ht2⟩ := IH (h2 ++ [HObj.hdict fs]) data dflt rest
            rcases hm2 : mergeDefaultHGo n (h2 ++ [HObj.hdict fs]) data dflt rest with ⟨h4, r2⟩
            rw [hm2] at ht2
            refine ⟨[HObj.hdict []] ++ t1 ++ [HObj.hdict fs] ++ t2, ?_⟩
            cases r2 with
            | error e =>
              simp only [hm1, hm2]
              simp only at ht1 ht2
              rw [ht2, ht1]
              simp [List.append_assoc]
            | ok rest2 =>
              simp only [hm1, hm2]
              simp only at ht1 ht2
              rw [ht2, ht1]
              simp [List.append_assoc]
      · rw [if_neg hb]
        by_cases ha : hIsArray h (hGetProp h dflt key) = true
        · rw [if_pos ha]
          by_cases hva : hIsArray h (hGetProp h data key) = true
          · rw [if_pos hva]
            by_cases hsc : ((hElems h (hGetProp h data key)).any (fun e => hIsObject e)) = true
            · rw [if_pos hsc]
              exact ⟨[], by simp⟩
            · rw [if_neg hsc]
              obtain ⟨t2, ht2⟩ := IH (h ++ [HObj.harr (hElems h (hGetProp h data key))]) data dflt rest
              rcases hm2 : mergeDefaultHGo n (h ++ [HObj.harr (hElems h (hGetProp h data key))])
                data dflt rest with ⟨h4, r2⟩
              rw [hm2] at ht2
              refine ⟨[HObj.harr (hElems h (hGetProp h data key))] ++ t2, ?_⟩
              cases r2 with
              | error e =>
                simp only [hm2]
                simp only at ht2
                rw [ht2]
                simp [List.append_assoc]
              | ok rest2 =>
                simp only [hm2]
                simp only at ht2
                rw [ht2]
                simp [List.append_assoc]
          · rw [if_neg hva]
            by_cases hsc : ((hElems h (hGetProp h dflt key)).any (fun e => hIsObject e)) = true
            · rw [if_pos hsc]
              exact ⟨[], by simp⟩
            · rw [if_neg hsc]
              obtain ⟨t2, ht2⟩ := IH (h ++ [HObj.harr (hElems h (hGetProp h dflt key))]) data dflt rest
              rcases hm2 : mergeDefaultHGo n (h ++ [HObj.harr (hElems h (hGetProp h dflt key))])
                data dflt rest with ⟨h4, r2⟩
              rw [hm2] at ht2
              refine ⟨[HObj.harr (hElems h (hGetProp h dflt key))] ++ t2, ?_⟩
              cases r2 with
              | error e =>
                simp only [hm2]
                simp only at ht2
                rw [ht2]
                simp [List.append_assoc]
              | ok rest2 =>
                simp only [hm2]
                simp only at ht2
                rw [ht2]
                simp [List.append_assoc]
        · rw [if_neg ha]
          obtain ⟨t2, ht2⟩ := IH h data dflt rest
          rcases hm2 : mergeDefaultHGo n h data dflt rest with ⟨h4, r2⟩
          rw [hm2] at ht2
          cases r2 with
          | error e => exact ⟨t2, by simp only [hm2]; simpa using ht2⟩
          | ok rest2 => exact ⟨t2, by simp only [hm2]; simpa using ht2⟩

/-- **C9**: a call to `mergeDefault` only allocates.  The post-call heap
extends the pre-call heap, so every object that existed before the call —
in particular `data`, `defaultData`, and everything nested inside them — is
bitwise unchanged at its old address; and on success the result is a
reference to a newly constructed object (an address that did not exist
before the call).  This holds for every fuel bound, on success and on
failure alike. -/
theorem mergeDefaultH_frame (fuel : Nat) (h : Heap) (data dflt : HVal) :
    ∃ tail, (mergeDefaultH fuel h data dflt).1 = h ++ tail ∧
      (∀ a, a < h.length → (mergeDefaultH fuel h data dflt).1[a]? = h[a]?) ∧
      (∀ v, (mergeDefaultH fuel h data dflt).2 = .ok v →
        ∃ r, v = HVal.ref r ∧ h.length ≤ r) := by
  obtain ⟨t, ht⟩ := mergeDefaultHGo_extends fuel h data dflt (keySetH h data dflt)
  rcases hm : mergeDefaultHGo fuel h data dflt (keySetH h data dflt) with ⟨h2, r⟩
  rw [hm] at ht
  simp only at ht
  cases r with
  | error e =>
    refine ⟨t, ?_, ?_, ?_⟩
    · simp only [mergeDefaultH, hm]
      exact ht
    · intro a ha
      simp only [mergeDefaultH, hm]
      rw [ht]
      exact List.getElem?_append_left ha
    · intro v hv
      simp only [mergeDefaultH, hm] at hv
      simp at hv
  | ok fs =>
    refine ⟨t ++ [HObj.hdict fs], ?_, ?_, ?_⟩
    · simp only [mergeDefaultH, hm]
      rw [ht, List.append_assoc]
    · intro a ha
      simp only [mergeDefaultH, hm]
      rw [ht, List.append_assoc]
      exact List.getElem?_append_left ha
    · intro v hv
      simp only [mergeDefaultH, hm] at hv
      refine ⟨h2.length, ?_, ?_⟩
      · exact (Except.ok.inj hv).symm
      · rw [ht]
        simp

/-- A concrete two-object heap: address 0 holds the data `{x: 1}`, address 1
holds the default `{x: 2, y: "d"}`. -/
def witnessHeap : Heap :=
  [HObj.hdict [("x", HVal.numV 1)], HObj.hdict [("x", HVal.numV 2), ("y", HVal.strV "d")]]

/-- Witness for C9: merging `{x:1}` over default `{x:2, y:"d"}` in
`witnessHeap` returns a reference to the freshly allocated address 2, and
address 0 (the data argument) is unchanged. -/
theorem mergeDefaultH_frame_witness :
    (mergeDefaultH 3 witnessHeap (HVal.ref 0) (HVal.ref 1)).2 = .ok (HVal.ref 2) ∧
    (∃ r, HVal.ref 2 = HVal.ref r ∧ witnessHeap.length ≤ r) ∧
    (mergeDefaultH 3 witnessHeap (HVal.ref 0) (HVal.ref 1)).1[0]? = witnessHeap[0]? := by
  refine ⟨rfl, ?_, ?_⟩
  · obtain ⟨t, _, _, hf⟩ := mergeDefaultH_frame 3 witnessHeap (HVal.ref 0) (HVal.ref 1)
    exact hf (HVal.ref 2) rfl
  · obtain ⟨t, _, hold, _⟩ := mergeDefaultH_frame 3 witnessHeap (HVal.ref 0) (HVal.ref 1)
    exact hold 0 (by decide)

/-!
## `replaceEnvVariable` (src/configs/env-config.ts)

```ts
function replaceEnvVariable(parsed: dotenv.DotenvParseOutput): object {
  const result = {};
  const keyList = Object.keys(parsed);
  const regex = /(?<=\$\{).*?(?=\})/g;
  for (let i = 0; i < keyList.length; i++) {
    const key = keyList[i];
    let value = parsed[key];
    if (value === undefined) { continue; }
    let matchArray = regex.exec(value);
    while (matchArray !== null) {
      const matchKey = matchArray[0];
      const replaceValue = parsed[matchKey];
      if (matchKey === key) throw Error(`不可自己引用自己 ${matchKey}`);
      if (replaceValue === undefined) throw Error(`找無環境變數 ${matchKey}`);
      value = value.replace(`\${${matchKey}}`, replaceValue);
      parsed[key] = value;
      regex.lastIndex = 0;
      matchArray = regex.exec(value);
    }
    result[key] = parsed[key];
  }
  return result;
}
```

The mapping is an association list `List (String × Option String)` (a value
of `none` models an `undefined` entry, which the loop skips).  The regex
`(?<=\$\{).*?(?=\})` is embedded by `findPlaceholder`: its leftmost match is
the content between the first `"${"` that is followed by a `"}"` with no
line terminator in between (lazy `.*?`, where `.` excludes line
terminators), and the closing position is the first such `"}"`.
`value.replace(pat, repl)` with a string pattern replaces the first
occurrence of the literal pattern and processes the JavaScript substitution
escapes `$$`, `$&`, `` $` `` and `$'` inside the replacement string
(`expandDollar`).  The `while` loop is bounded by explicit `fuel` (the
source can genuinely diverge, e.g. on indirect placeholder cycles); `none`
means the fuel was exhausted, `some` is the source's behaviour.
-/

def isLineTerm (c : Char) : Bool :=
  c == '\n' || c == '\r' || c == Char.ofNat 0x2028 || c == Char.ofNat 0x2029

/-- Lazy match content after a `"${"`: the characters up to the first `'}'`,
or `none` if a line terminator (which `.` cannot match) or the end of the
string comes first. -/
def upToBrace : List Char → Option (List Char)
  | [] => none
  | c :: rest =>
    if c == '}' then some []
    else if isLineTerm c then none
    else (upToBrace rest).map (fun l => c :: l)

/-- The leftmost match of `/(?<=\$\{).*?(?=\})/` in the value. -/
def findPlaceholder : List Char → Option (List Char)
  | [] => none
  | c :: rest =>
    if c == '$' then
      match rest with
      | [] => none
      | c2 :: rest2 =>
        if c2 == '{' then
          match upToBrace rest2 with
          | some mkl => some mkl
          | none => findPlaceholder rest
        else findPlaceholder rest
    else findPlaceholder rest

def startsWithChars : List Char → List Char → Bool
  | [], _ => true
  | _ :: _, [] => false
  | p :: ps, s :: ss => p == s && startsWithChars ps ss

/-- Split around the first occurrence of the literal pattern: `some (before,
after)` with the pattern removed, `none` when the pattern does not occur. -/
def splitFirst (pat : List Char) : List Char → Option (List Char × List Char)
  | [] => if startsWithChars pat [] then some ([], []) else none
  | c :: rest =>
    if startsWithChars pat (c :: rest) then some ([], (c :: rest).drop pat.length)
    else (splitFirst pat rest).map (fun q => (c :: q.1, q.2))

/-- JavaScript's `GetSubstitution` for a string pattern: `$$`, `$&` (the
matched text), `` $` `` (the text before the match) and `$'` (the text after
the match) are substitution escapes; any other `$` is literal. -/
def expandDollar (matched before after : List Char) : List Char → List Char
  | [] => []
  | c :: rest =>
    if c == '$' then
      match rest with
      | [] => [c]
      | c2 :: rest2 =>
        if c2 == '$' then c :: expandDollar matched before after rest2
        else if c2 == '&' then matched ++ expandDollar matched before after rest2
        else if c2 == Char.ofNat 96 then before ++ expandDollar matched before after rest2
        else if c2 == Char.ofNat 39 then after ++ expandDollar matched before after rest2
        else c :: c2 :: expandDollar matched before after rest2
    else c :: expandDollar matched before after rest

/-- `s.replace(pat, repl)` for a string pattern: replace the first occurrence
only, applying the substitution escapes of the replacement string. -/
def jsReplaceFirst (s pat repl : List Char) : List Char :=
  match splitFirst pat s with
  | none => s
  | some q => q.1 ++ expandDollar pat q.1 q.2 repl ++ q.2

/-- `parsed[k]` (`none` both for an absent key and for an `undefined`
value). -/
def getVal (m : List (String × Option String)) (k : String) : Option String :=
  match m.find? (fun p => p.1 == k) with
  | some p => p.2
  | none => none

/-- `parsed[k] = v`. -/
def setVal (m : List (String × Option String)) (k : String) (v : String) :
    List (String × Option String) :=
  m.map (fun p => if p.1 == k then (p.1, some v) else p)

/-- One substitution: `value.replace(`\${${matchKey}}`, replaceValue)`. -/
def substStep (value matchKey replaceValue : String) : String :=
  String.mk (jsReplaceFirst value.data ("$\x7b" ++ matchKey ++ "\x7d").data replaceValue.data)

/-- The `while (matchArray !== null)` loop for one key: repeatedly resolve
the leftmost placeholder of `value`, writing each intermediate value back
into the shared mapping, until no placeholder remains (`ok` with the final
mapping and value) or an error is thrown. -/
def substLoop : Nat → List (String × Option String) → String → String →
    Option (Except String (List (String × Option String) × String))
  | 0, _, _, _ => none
  | fuel + 1, parsed, key, value =>
    match findPlaceholder value.data with
    | none => some (.ok (parsed, value))
    | some mkl =>
      if String.mk mkl == key then
        some (.error ("不可自己引用自己 " ++ String.mk mkl))
      else
        match getVal parsed (String.mk mkl) with
        | none => some (.error ("找無環境變數 " ++ String.mk mkl))
        | some replaceValue =>
          substLoop fuel (setVal parsed key (substStep value (String.mk mkl) replaceValue))
            key (substStep value (String.mk mkl) replaceValue)

/-- The `for` loop over `keyList`.  `result[key] = parsed[key]` copies the
value the `while` loop left in the mapping, which is exactly the value the
loop returned (the loop's last write-back was that value, and with no
iteration the mapping still holds the original value). -/
def replaceEnvLoop (fuel : Nat) : List (String × Option String) → List String →
    Option (Except String (List (String × String)))
  | _, [] => some (.ok [])
  | parsed, key :: ks =>
    match getVal parsed key with
    | none => replaceEnvLoop fuel parsed ks
    | some value =>
      match substLoop fuel parsed key value with
      | none => none
      | some (.error e) => some (.error e)
      | some (.ok q) =>
        match replaceEnvLoop fuel q.1 ks with
        | none => none
        | some (.error e) => some (.error e)
        | some (.ok res) => some (.ok ((key, q.2) :: res))

/-- `replaceEnvVariable`: substitute `${KEY}` placeholders across the
mapping, producing a fresh result object. -/
def replaceEnvVariable (fuel : Nat) (parsed : List (String × Option String)) :
    Option (Except String (List (String × String))) :=
  replaceEnvLoop fuel parsed (parsed.map Prod.fst)

/-! ### Invariants of the substitution loop -/

theorem getVal_mem_of_some {m : List (String × Option String)} {k : String} {v : String}
    (h : getVal m k = some v) : k ∈ m.map Prod.fst := by
  rw [getVal] at h
  cases hf : m.find? (fun p => p.1 == k) with
  | none => rw [hf] at h; exact absurd h (by simp)
  | some p =>
    have hp := List.find?_some hf
    have hm : p ∈ m := List.mem_of_find?_eq_some hf
    have hp2 : p.1 = k := by simpa using hp
    rw [← hp2]
    exact List.mem_map_of_mem Prod.fst hm

theorem setVal_map_fst (m : List (String × Option String)) (k : String) (v : String) :
    (setVal m k v).map Prod.fst = m.map Prod.fst := by
  induction m with
  | nil => rfl
  | cons p rest ih =>
    rw [setVal, List.map_cons, List.map_cons, List.map_cons]
    by_cases h : (p.1 == k) = true
    · rw [if_pos h]
      rw [setVal] at ih
      rw [ih]
    · rw [if_neg h]
      rw [setVal] at ih
      rw [ih]

theorem getVal_setVal_ne {m : List (String × Option String)} {k j : String} {v : String}
    (hne : j ≠ k) : getVal (setVal m k v) j = getVal m j := by
  induction m with
  | nil => rfl
  | cons p rest ih =>
    rw [setVal, List.map_cons]
    by_cases h : (p.1 == k) = true
    · rw [if_pos h]
      have hpk : p.1 = k := by simpa using h
      have hpj : (p.1 == j) = false := by
        rw [hpk]
        simp only [beq_eq_false_iff_ne, ne_eq]
        exact fun he => hne he.symm
      rw [getVal, getVal, List.find?, List.find?]
      simp only [hpj]
      rw [setVal] at ih
      exact ih
    · rw [if_neg h]
      rw [getVal, getVal, List.find?, List.find?]
      by_cases hpj : (p.1 == j) = true
      · simp only [hpj]
      · simp only [hpj]
        rw [setVal] at ih
        exact ih

theorem getVal_setVal_self {m : List (String × Option String)} {k : String} {v : String}
    (hmem : k ∈ m.map Prod.fst) : getVal (setVal m k v) k = some v := by
  induction m with
  | nil => simp at hmem
  | cons p rest ih =>
    rw [setVal, List.map_cons]
    by_cases h : (p.1 == k) = true
    · rw [if_pos h]
      rw [getVal, List.find?]
      simp only [h]
    · rw [if_neg h]
      rw [getVal, List.find?]
      simp only [h]
      rw [setVal] at ih
      apply ih
      rcases List.mem_map.mp hmem with ⟨q, hq, hqk⟩
      rcases List.mem_cons.mp hq with rfl | hq2
      · exact absurd (show (q.1 == k) = true by simp [hqk]) h
      · rw [← hqk]
        exact List.mem_map_of_mem Prod.fst hq2

/-- The substitution loop preserves the mapping's key list and the
defined-ness of every entry, leaves the processed key bound to the returned
value, and only returns a value with no remaining placeholder. -/
theorem substLoop_spec :
    ∀ (fuel : Nat) (parsed : List (String × Option String)) (key value : String)
      (parsed2 : List (String × Option String)) (v : String),
      substLoop fuel parsed key value = some (.ok (parsed2, v)) →
      getVal parsed key = some value →
      parsed2.map Prod.fst = parsed.map Prod.fst ∧
      (∀ j, (getVal parsed2 j).isSome = (getVal parsed j).isSome) ∧
      getVal parsed2 key = some v ∧
      findPlaceholder v.data = none := by
  intro fuel
  induction fuel with
  | zero =>
    intro parsed key value parsed2 v h hkv
    exact absurd h (by rw [substLoop]; simp)
  | succ n IH =>
    intro parsed key value parsed2 v h hkv
    rw [substLoop] at h
    cases hf : findPlaceholder value.data with
    | none =>
      rw [hf] at h
      have h2 : parsed = parsed2 ∧ value = v := by
        simpa using h
      obtain ⟨rfl, rfl⟩ := h2
      exact ⟨rfl, fun j => rfl, hkv, hf⟩
    | some mkl =>
      by_cases hself : (String.mk mkl == key) = true
      · rw [hf] at h
        simp only [hself, if_true] at h
        exact absurd h (by simp)
      · simp only [hf, if_neg hself] at h
        cases hrv : getVal parsed (String.mk mkl) with
        | none =>
          simp only [hrv] at h
          exact absurd h (by simp)
        | some replaceValue =>
          simp only [hrv] at h
          have hkey : key ∈ parsed.map Prod.fst := getVal_mem_of_some hkv
          have hkv2 : getVal (setVal parsed key
              (substStep value (String.mk mkl) replaceValue)) key =
              some (substStep value (String.mk mkl) replaceValue) :=
            getVal_setVal_self hkey
          obtain ⟨ih1, ih2, ih3, ih4⟩ := IH _ _ _ _ _ h hkv2
          refine ⟨ih1.trans (setVal_map_fst _ _ _), ?_, ih3, ih4⟩
          intro j
          rw [ih2 j]
          by_cases hj : j = key
          · subst hj
            rw [hkv2, hkv]
            rfl
          · rw [getVal_setVal_ne hj]

/-- The outer loop: the result has one entry per defined key, in key order,
and every result value is free of placeholders. -/
theorem replaceEnvLoop_spec :
    ∀ (ks : List String) (fuel : Nat) (parsed : List (String × Option String))
      (res : List (String × String)),
      replaceEnvLoop fuel parsed ks = some (.ok res) →
      res.map Prod.fst = ks.filter (fun k => (getVal parsed k).isSome) ∧
      (∀ p ∈ res, findPlaceholder (p.2 : String).data = none) := by
  intro ks
  induction ks with
  | nil =>
    intro fuel parsed res h
    have : res = [] := by
      rw [replaceEnvLoop] at h
      simpa using h.symm
    subst this
    exact ⟨rfl, by simp⟩
  | cons key ks ih =>
    intro fuel parsed res h
    rw [replaceEnvLoop] at h
    cases hkv : getVal parsed key with
    | none =>
      rw [hkv] at h
      obtain ⟨ih1, ih2⟩ := ih fuel parsed res h
      refine ⟨?_, ih2⟩
      rw [List.filter_cons]
      simp only [hkv, Option.isSome_none]
      exact ih1
    | some value =>
      simp only [hkv] at h
      cases hsl : substLoop fuel parsed key value with
      | none =>
        simp only [hsl] at h
        exact absurd h (by simp)
      | some r =>
        simp only [hsl] at h
        cases r with
        | error e => exact absurd h (by simp)
        | ok q =>
          cases hrl : replaceEnvLoop fuel q.1 ks with
          | none =>
            simp only [hrl] at h
            exact absurd h (by simp)
          | some r2 =>
            simp only [hrl] at h
            cases r2 with
            | error e => exact absurd h (by simp)
            | ok res2 =>
              have hres : res = (key, q.2) :: res2 := by
                simpa using h.symm
              subst hres
              obtain ⟨sl1, sl2, sl3, sl4⟩ :=
                substLoop_spec fuel parsed key value q.1 q.2
                  (by rw [hsl]) hkv
              obtain ⟨ih1, ih2⟩ := ih fuel q.1 res2 hrl
              constructor
              · rw [List.map_cons, List.filter_cons]
                simp only [hkv, Option.isSome_some, if_true]
                rw [ih1]
                congr 1
                apply List.filter_congr
                intro x hx
                rw [sl2 x]
              · intro p hp
                rcases List.mem_cons.mp hp with rfl | hp2
                · exact sl4
                · exact ih2 p hp2

/-- **C5**: interpolation of `${KEY}` placeholders.  Concretely,
`{A:"1", B:"${A}-2"}` resolves to `{A:"1", B:"1-2"}`; `{A:"${A}"}` fails
with the self-reference error; `{A:"${B}"}` fails with the missing-key
error; an `undefined`-valued key is skipped and absent from the result.  In
general, the substitution loop throws the self-reference error whenever the
(leftmost) placeholder of the value being processed names its own key, and
the missing-key error whenever it names a key that is not defined in the
mapping; and whenever the function returns, the result holds exactly the
defined keys, in order, with no placeholder remaining in any value. -/
theorem replaceEnvVariable_spec :
    (replaceEnvVariable 9 [("A", some "1"), ("B", some "${A}-2")] =
      some (.ok [("A", "1"), ("B", "1-2")])) ∧
    (replaceEnvVariable 9 [("A", some "${A}")] =
      some (.error "不可自己引用自己 A")) ∧
    (replaceEnvVariable 9 [("A", some "${B}")] =
      some (.error "找無環境變數 B")) ∧
    (replaceEnvVariable 9 [("A", some "1"), ("B", none)] =
      some (.ok [("A", "1")])) ∧
    (∀ (fuel : Nat) (parsed : List (String × Option String)) (key value : String)
      (mkl : List Char),
      findPlaceholder value.data = some mkl → String.mk mkl = key →
      substLoop (fuel + 1) parsed key value =
        some (.error ("不可自己引用自己 " ++ key))) ∧
    (∀ (fuel : Nat) (parsed : List (String × Option String)) (key value : String)
      (mkl : List Char),
      findPlaceholder value.data = some mkl → String.mk mkl ≠ key →
      getVal parsed (String.mk mkl) = none →
      substLoop (fuel + 1) parsed key value =
        some (.error ("找無環境變數 " ++ String.mk mkl))) ∧
    (∀ (fuel : Nat) (parsed : List (String × Option String)) (res : List (String × String)),
      replaceEnvVariable fuel parsed = some (.ok res) →
      res.map Prod.fst = (parsed.map Prod.fst).filter (fun k => (getVal parsed k).isSome) ∧
      ∀ p ∈ res, findPlaceholder p.2.data = none) := by
  refine ⟨rfl, rfl, rfl, rfl, ?_, ?_, ?_⟩
  · intro fuel parsed key value mkl hf heq
    rw [substLoop]
    simp only [hf]
    rw [if_pos (by simp [heq])]
    rw [heq]
  · intro fuel parsed key value mkl hf hne hnone
    rw [substLoop]
    simp only [hf]
    rw [if_neg (by simp [hne])]
    simp only [hnone]
  · intro fuel parsed res h
    exact replaceEnvLoop_spec (parsed.map Prod.fst) fuel parsed res h

/-- Witness for C5: the general clauses instantiated on the spec's concrete
interpolation example. -/
theorem replaceEnvVariable_spec_witness :
    ([(("A" : String), ("1" : String)), ("B", "1-2")].map Prod.fst =
      ([(("A" : String), some ("1" : String)), ("B", some "${A}-2")].map Prod.fst).filter
        (fun k => (getVal [("A", some "1"), ("B", some "${A}-2")] k).isSome)) ∧
    findPlaceholder ("1-2" : String).data = none ∧
    substLoop 9 [(("A" : String), some ("${A}" : String))] "A" "${A}" =
      some (.error "不可自己引用自己 A") := by
  have h := replaceEnvVariable_spec.2.2.2.2.2.2 9
    [("A", some "1"), ("B", some "${A}-2")] [("A", "1"), ("B", "1-2")] rfl
  refine ⟨h.1, h.2 ("B", "1-2") (by simp), ?_⟩
  exact replaceEnvVariable_spec.2.2.2.2.1 8 [("A", some "${A}")] "A" "${A}" ['A'] rfl rfl

/-!
## `toDto` (src/data/data-operation.ts, lines 128–158)

```ts
export function toDto<T extends object>(dtoClass, plainObj, transformOption = {}, validate = false): T {
  const instance = plainToInstance(dtoClass, plainObj, mergeDefault(transformOption, DEFAULT_TRANSFORM_OPTION));
  if (!validate) { return instance; }
  const validateOption = validate === true ? undefined : validate;
  const errors = validateSync(instance, validateOption);
  if (errors.length > 0) {
    let message = '';
    for (const error of errors) {
      if (error.constraints) {
        for (const key in error.constraints) {
          message += `- ${key}: ${error.constraints[key]}\n`;
        }
      } else {
        message += `- ${error.toString()}\n`;
      }
    }
    throw new Error(`DTO ${dtoClass.name} 驗證失敗:\n${message}`);
  }
  return instance;
}
```

`plainToInstance` and `validateSync` belong to the external
class-transformer / class-validator boundary (out of scope per the spec), so
the instance is an opaque value and `validateSync` an oracle parameter.
`ValidationError` is modelled from class-validator's interface: `property`
is the offending field, `constraints` maps each violated *constraint name*
to its message (`undefined`, i.e. `none`, on intermediate errors, where the
source falls back to `error.toString()`, modelled by `stringRepr`).  Note
that the loop variable `key` of `for (const key in error.constraints)`
iterates over constraint names, not over field names. -/

structure ValidationError where
  property : String
  constraints : Option (List (String × String))
  stringRepr : String

/-- The inner `for (const key in error.constraints)` accumulation. -/
def renderConstraints : List (String × String) → String
  | [] => ""
  | p :: rest => "- " ++ p.1 ++ ": " ++ p.2 ++ "\n" ++ renderConstraints rest

/-- One iteration of `for (const error of errors)`: the truthiness check on
`error.constraints` (an empty constraints object is still truthy). -/
def renderValidationError (e : ValidationError) : String :=
  match e.constraints with
  | some cs => renderConstraints cs
  | none => "- " ++ e.stringRepr ++ "\n"

def renderErrors : List ValidationError → String
  | [] => ""
  | e :: rest => renderValidationError e ++ renderErrors rest

/-- The validation path of `toDto`: no validation requested returns the
instance; otherwise all validation errors are collected and, if any,
rendered into one aggregated message. -/
def toDto {α : Type} (dtoName : String) (inst : α) (validate : Bool)
    (validateSync : α → List ValidationError) : Except String α :=
  if !validate then .ok inst
  else if (validateSync inst).length > 0 then
    .error ("DTO " ++ dtoName ++ " 驗證失敗:\n" ++ renderErrors (validateSync inst))
  else .ok inst

/-- Substring containment between strings, at the character level. -/
def strContains (s sub : String) : Prop := sub.data <:+: s.data

instance (s sub : String) : Decidable (strContains s sub) :=
  List.decidableInfix sub.data s.data

theorem infix_append_right {l a b : List Char} (h : l <:+: b) : l <:+: a ++ b := by
  obtain ⟨s, t, rfl⟩ := h
  exact ⟨a ++ s, t, by simp⟩

theorem infix_append_left {l a b : List Char} (h : l <:+: a) : l <:+: a ++ b := by
  obtain ⟨s, t, rfl⟩ := h
  exact ⟨s, t ++ b, by simp⟩

theorem renderConstraints_contains {p : String × String} :
    ∀ {cs : List (String × String)}, p ∈ cs →
      ("- " ++ p.1 ++ ": " ++ p.2 ++ "\n").data <:+: (renderConstraints cs).data := by
  intro cs
  induction cs with
  | nil => intro h; simp at h
  | cons q rest ih =>
    intro h
    rcases List.mem_cons.mp h with rfl | h2
    · rw [renderConstraints]
      simp only [String.data_append]
      exact infix_append_left (by simp [List.infix_refl])
    · rw [renderConstraints]
      simp only [String.data_append]
      exact infix_append_right (ih h2)

theorem renderErrors_contains {e : ValidationError} :
    ∀ {errs : List ValidationError}, e ∈ errs →
      (renderValidationError e).data <:+: (renderErrors errs).data := by
  intro errs
  induction errs with
  | nil => intro h; simp at h
  | cons q rest ih =>
    intro h
    rcases List.mem_cons.mp h with rfl | h2
    · rw [renderErrors]
      simp only [String.data_append]
      exact infix_append_left (List.infix_refl _)
    · rw [renderErrors]
      simp only [String.data_append]
      exact infix_append_right (ih h2)

/-- **C6 counterexample**: one violated constraint on field `age`, constraint
name `isInt`, message `"must be an integer"`.  The thrown message renders the
entry as `- isInt: must be an integer` — the *constraint name*, not the
field name — so it does not contain the `<field>: <message>` entry
`age: must be an integer` the claim prescribes (indeed `age:` occurs nowhere
in it). -/
theorem toDto_field_rendering_cex :
    toDto "Person" () true
        (fun _ => [⟨"age", some [("isInt", "must be an integer")], ""⟩]) =
      .error "DTO Person 驗證失敗:\n- isInt: must be an integer\n" ∧
    ¬ strContains "DTO Person 驗證失敗:\n- isInt: must be an integer\n"
        "age: must be an integer" ∧
    ¬ strContains "DTO Person 驗證失敗:\n- isInt: must be an integer\n" "age:" := by
  refine ⟨rfl, by decide, by decide⟩

/-- **C6 (amended)**: when validation is requested and at least one
constraint is violated, no instance is returned: the call fails with a
single aggregated multi-line message that contains, for every violated
constraint of every reported error, the newline-terminated entry
`- <constraint-name>: <message>` — all violations are collected, not only
the first. -/
theorem toDto_aggregated_validation (dtoName : String) {α : Type} (inst : α)
    (validateSync : α → List ValidationError) (hne : validateSync inst ≠ []) :
    ∃ msg, toDto dtoName inst true validateSync = .error msg ∧
      ∀ e ∈ validateSync inst, ∀ p ∈ (e.constraints.getD []),
        strContains msg ("- " ++ p.1 ++ ": " ++ p.2 ++ "\n") := by
  refine ⟨"DTO " ++ dtoName ++ " 驗證失敗:\n" ++ renderErrors (validateSync inst), ?_, ?_⟩
  · rw [toDto]
    rw [if_neg (by simp)]
    rw [if_pos (List.length_pos.mpr hne)]
  · intro e he p hp
    rw [strContains]
    simp only [String.data_append]
    apply infix_append_right
    cases hc : e.constraints with
    | none =>
      rw [hc] at hp
      simp at hp
    | some cs =>
      rw [hc] at hp
      simp only [Option.getD_some] at hp
      have h1 := renderConstraints_contains hp
      have h2 := renderErrors_contains he
      rw [renderValidationError, hc] at h2
      exact h1.trans h2

/-- Witness for C6's amended theorem at a concrete input with two violated
constraints on different fields: both entries occur in the one message. -/
theorem toDto_aggregated_validation_witness :
    ∃ msg, toDto "Cfg" () true
        (fun _ => [⟨"port", some [("isInt", "port must be an integer")], ""⟩,
                   ⟨"host", some [("isString", "host must be a string")], ""⟩]) =
        .error msg ∧
      strContains msg "- isInt: port must be an integer\n" ∧
      strContains msg "- isString: host must be a string\n" := by
  obtain ⟨msg, h1, h2⟩ := toDto_aggregated_validation "Cfg" ()
    (fun _ => [⟨"port", some [("isInt", "port must be an integer")], ""⟩,
               ⟨"host", some [("isString", "host must be a string")], ""⟩])
    (by simp)
  refine ⟨msg, h1, ?_, ?_⟩
  · exact h2 ⟨"port", some [("isInt", "port must be an integer")], ""⟩ (by simp)
      ("isInt", "port must be an integer") (by simp)
  · exact h2 ⟨"host", some [("isString", "host must be a string")], ""⟩ (by simp)
      ("isString", "host must be a string") (by simp)

/-!
## `parseInt(value, 10)`, `IntIdPipe` and `stringToInteger`

`parseInt` with radix 10: skip leading whitespace, read an optional sign and
then the longest prefix of ASCII digits; `NaN` (here `none`) when no digit
follows.  Numbers are exact integers in this model; within `IntIdPipe` the
parsed value comes from at most 10 characters, far below the 2⁵³ bound where
JavaScript numbers lose integer precision. -/

def isJsSpace (c : Char) : Bool :=
  c == ' ' || c == '\t' || c == '\n' || c == '\r' ||
  c == Char.ofNat 11 || c == Char.ofNat 12 || c == Char.ofNat 0xa0 ||
  c == Char.ofNat 0xfeff || c == Char.ofNat 0x2028 || c == Char.ofNat 0x2029

/-- ASCII digit `0`–`9`. -/
def isDigitChar (c : Char) : Bool := 48 ≤ c.toNat && c.toNat ≤ 57

def digitsToNat (ds : List Char) : Nat :=
  ds.foldl (fun a c => a * 10 + (c.toNat - 48)) 0

def jsParseInt (s : String) : Option Int :=
  match s.data.dropWhile isJsSpace with
  | [] => none
  | c :: rest =>
    if c == '-' then
      match rest.takeWhile isDigitChar with
      | [] => none
      | ds => some (-(digitsToNat ds : Int))
    else if c == '+' then
      match rest.takeWhile isDigitChar with
      | [] => none
      | ds => some (digitsToNat ds)
    else
      match (c :: rest).takeWhile isDigitChar with
      | [] => none
      | ds => some (digitsToNat ds)

/-!
## `IntIdPipe.transform` (src/pipe/int-id-pipe.ts)

```ts
const MAX_POSTGRES_INT = 2147483647;
transform(value: string): number {
  if (value.length > 10) {
    throw new BadRequestException(`${this.name} length must be less than 10`);
  }
  const num = parseInt(value, 10);
  if (isNaN(num) || num <= 0) {
    throw new BadRequestException(`${this.name} must be a positive integer`);
  }
  if (num > MAX_POSTGRES_INT) {
    throw new BadRequestException(`${this.name} must be less than ${MAX_POSTGRES_INT}`);
  }
  return num;
}
```
-/

def intIdPipeTransform (name : String) (value : String) : Except String Int :=
  if value.length > 10 then .error (name ++ " length must be less than 10")
  else
    match jsParseInt value with
    | none => .error (name ++ " must be a positive integer")
    | some num =>
      if num ≤ 0 then .error (name ++ " must be a positive integer")
      else if num > 2147483647 then .error (name ++ " must be less than 2147483647")
      else .ok num

/-!
## `stringToInteger` (src/data/type-transform.ts, lines 57–66)

```ts
export function stringToInteger({ value, key }: TransformFnParams): number {
  if (typeof value !== "string") { return value; }
  const num = parseInt(value, 10);
  if (isNaN(num)) {
    throw new Error(`Value of ${key} must be an integer but got ${value}`);
  }
  return num;
}
```
-/

def JsVal.isStr : JsVal → Bool
  | .strV _ => true
  | _ => false

def stringToInteger (key : String) (value : JsVal) : Except String JsVal :=
  match value with
  | .strV s =>
    match jsParseInt s with
    | none => .error ("Value of " ++ key ++ " must be an integer but got " ++ s)
    | some num => .ok (.numV num)
  | v => .ok v

/-! ### Digit-string facts about `jsParseInt` -/

theorem not_space_of_digitRange {c : Char} (h1 : 48 ≤ c.toNat) (h2 : c.toNat ≤ 57) :
    isJsSpace c = false := by
  have hne : ∀ d : Char, d.toNat < 48 ∨ 57 < d.toNat → (c == d) = false := by
    intro d hd
    apply beq_eq_false_iff_ne.mpr
    intro he
    subst he
    rcases hd with hd | hd <;> omega
  rw [isJsSpace]
  rw [hne ' ' (by decide), hne '\t' (by decide), hne '\n' (by decide), hne '\r' (by decide),
    hne (Char.ofNat 11) (by decide), hne (Char.ofNat 12) (by decide),
    hne (Char.ofNat 0xa0) (by decide), hne (Char.ofNat 0xfeff) (by decide),
    hne (Char.ofNat 0x2028) (by decide), hne (Char.ofNat 0x2029) (by decide)]
  rfl

theorem not_sign_of_digitRange {c : Char} (h1 : 48 ≤ c.toNat) (h2 : c.toNat ≤ 57) :
    (c == '-') = false ∧ (c == '+') = false := by
  constructor <;>
  · apply beq_eq_false_iff_ne.mpr
    intro he
    subst he
    revert h1 h2
    decide

theorem takeWhile_all {p : Char → Bool} :
    ∀ {l : List Char}, (∀ c ∈ l, p c = true) → l.takeWhile p = l := by
  intro l
  induction l with
  | nil => intro h; rfl
  | cons c rest ih =>
    intro h
    rw [List.takeWhile_cons, if_pos (h c (List.mem_cons_self _ _))]
    rw [ih (fun d hd => h d (List.mem_cons_of_mem c hd))]

/-- On a non-empty all-digit string, `parseInt` succeeds with the value of
the digits. -/
theorem jsParseInt_digits {s : String} {ds : List Char} (hne : ds ≠ [])
    (hd : ∀ c ∈ ds, isDigitChar c = true) (hs : s.data = ds) :
    jsParseInt s = some ((digitsToNat ds : Nat) : Int) := by
  rw [jsParseInt, hs]
  cases ds with
  | nil => exact absurd rfl hne
  | cons c rest =>
    have hc := hd c (List.mem_cons_self _ _)
    rw [isDigitChar, Bool.and_eq_true, decide_eq_true_eq, decide_eq_true_eq] at hc
    have hnospace : isJsSpace c = false := not_space_of_digitRange hc.1 hc.2
    rw [List.dropWhile_cons, if_neg (by simp [hnospace])]
    obtain ⟨hm, hp⟩ := not_sign_of_digitRange hc.1 hc.2
    simp only [hm, hp, Bool.false_eq_true, if_false]
    rw [takeWhile_all hd]

theorem intIdPipeTransform_eq_none {name s : String} (hl : ¬ s.length > 10)
    (hp : jsParseInt s = none) :
    intIdPipeTransform name s = .error (name ++ " must be a positive integer") := by
  rw [intIdPipeTransform, if_neg hl, hp]

theorem intIdPipeTransform_eq_some {name s : String} {m : Int} (hl : ¬ s.length > 10)
    (hp : jsParseInt s = some m) :
    intIdPipeTransform name s =
      (if m ≤ 0 then .error (name ++ " must be a positive integer")
       else if m > 2147483647 then .error (name ++ " must be less than 2147483647")
       else .ok m) := by
  rw [intIdPipeTransform, if_neg hl, hp]

/-- **C7**: the integer-ID validator.  It succeeds with value `n` exactly
when the input has at most 10 characters, `parseInt` yields `n`, `n` is
positive and `n` does not exceed 2147483647; a string longer than 10
characters fails with the named-field length message; and the spec's five
examples behave as stated (`"42"` → `42`; `"0"`, `"abc"` not positive
integers; `"99999999999"` too long; `"2147483648"` over the 32-bit
maximum). -/
theorem intIdPipe_spec (name s : String) :
    (∀ n : Int, intIdPipeTransform name s = .ok n ↔
      (s.length ≤ 10 ∧ jsParseInt s = some n ∧ 0 < n ∧ n ≤ 2147483647)) ∧
    (s.length > 10 →
      intIdPipeTransform name s = .error (name ++ " length must be less than 10")) ∧
    (intIdPipeTransform name "42" = .ok 42) ∧
    (intIdPipeTransform name "0" = .error (name ++ " must be a positive integer")) ∧
    (intIdPipeTransform name "abc" = .error (name ++ " must be a positive integer")) ∧
    (intIdPipeTransform name "99999999999" =
      .error (name ++ " length must be less than 10")) ∧
    (intIdPipeTransform name "2147483648" =
      .error (name ++ " must be less than 2147483647")) := by
  refine ⟨?_, ?_, rfl, rfl, rfl, rfl, rfl⟩
  · intro n
    by_cases hl : s.length > 10
    · rw [intIdPipeTransform, if_pos hl]
      constructor
      · intro h
        exact absurd h (by simp)
      · rintro ⟨h1, _⟩
        omega
    · cases hp : jsParseInt s with
      | none =>
        rw [intIdPipeTransform_eq_none hl hp]
        constructor
        · intro h
          exact absurd h (by simp)
        · rintro ⟨h1, h2, h3⟩
          exact absurd h2 (by simp)
      | some m =>
        rw [intIdPipeTransform_eq_some hl hp]
        by_cases hm : m ≤ 0
        · rw [if_pos hm]
          constructor
          · intro h
            exact absurd h (by simp)
          · rintro ⟨h1, h2, h3, h4⟩
            have he : m = n := Option.some.inj h2
            omega
        · rw [if_neg hm]
          by_cases hmax : m > 2147483647
          · rw [if_pos hmax]
            constructor
            · intro h
              exact absurd h (by simp)
            · rintro ⟨h1, h2, h3, h4⟩
              have he : m = n := Option.some.inj h2
              omega
          · rw [if_neg hmax]
            constructor
            · intro h
              have he : m = n := Except.ok.inj h
              subst he
              exact ⟨by omega, rfl, by omega, by omega⟩
            · rintro ⟨h1, h2, h3, h4⟩
              have he : m = n := Option.some.inj h2
              subst he
              rfl
  · intro hl
    rw [intIdPipeTransform, if_pos hl]

/-- Witness for C7 at concrete inputs, discharging the characterization's
hypotheses at `"42"` and the length clause at an 11-character string. -/
theorem intIdPipe_spec_witness :
    intIdPipeTransform "id" "42" = .ok 42 ∧
    intIdPipeTransform "id" "99999999999" = .error ("id" ++ " length must be less than 10") := by
  constructor
  · exact ((intIdPipe_spec "id" "42").1 42).mpr ⟨by decide, rfl, by decide, by decide⟩
  · exact (intIdPipe_spec "id" "99999999999").2.1 (by decide)

/-- **C8**: `stringToInteger` passes every non-string value through
unchanged; on a non-empty all-digit string it returns the parsed integer;
and on a string input it fails — with the invalid-integer message naming the
field and the offending value — exactly when `parseInt` cannot parse the
string. -/
theorem stringToInteger_spec (key : String) :
    (∀ v : JsVal, v.isStr = false → stringToInteger key v = .ok v) ∧
    (∀ (s : String) (ds : List Char), ds ≠ [] → (∀ c ∈ ds, isDigitChar c = true) →
      s.data = ds →
      stringToInteger key (.strV s) = .ok (.numV ((digitsToNat ds : Nat) : Int))) ∧
    (∀ s : String,
      (∃ n, jsParseInt s = some n ∧ stringToInteger key (.strV s) = .ok (.numV n)) ∨
      (jsParseInt s = none ∧ stringToInteger key (.strV s) =
        .error ("Value of " ++ key ++ " must be an integer but got " ++ s))) := by
  refine ⟨?_, ?_, ?_⟩
  · intro v hv
    cases v <;> first
      | rfl
      | simp [JsVal.isStr] at hv
  · intro s ds hne hd hs
    rw [stringToInteger, jsParseInt_digits hne hd hs]
  · intro s
    cases hp : jsParseInt s with
    | some n =>
      left
      exact ⟨n, rfl, by rw [stringToInteger, hp]⟩
    | none =>
      right
      exact ⟨rfl, by rw [stringToInteger, hp]⟩

/-- Witness for C8: a boolean passes through untouched, and the digit string
`"42"` parses to `42`. -/
theorem stringToInteger_spec_witness :
    stringToInteger "port" (.boolV true) = .ok (.boolV true) ∧
    stringToInteger "port" (.strV "42") = .ok (.numV 42) := by
  constructor
  · exact (stringToInteger_spec "port").1 (.boolV true) rfl
  · exact (stringToInteger_spec "port").2.1 "42" ['4', '2'] (by decide) (by decide) rfl

end NestUtils
